import Mathlib

/-!
# Verification of the descriptor engine of `entry-cli` (`calc_props.py`)

This file gives a shallow embedding, over exact real arithmetic, of the
property-calculation engine in `calc_props.py`:

* the topology classifier `is_rotor` and the counter `rotatable_bonds`;
* the geometry descriptors `calc_glob` (globularity, via the eigenvalues of
  the 3x3 covariance matrix of the atom coordinates) and `calc_pbf`
  (mean absolute distance to the least-squares best-fit plane);
* the per-molecule aggregator `average_properties`, the fault-isolation
  wrapper `average_properties_safe`, and the batch collection loop of `main`;
* the coordinate extraction `get_atom_coords` and the reporting path
  `report_properties`.

Python functions that can raise are embedded as `Option`-valued functions
(`none` models an uncaught exception).  Floating-point arithmetic is embedded
as real arithmetic; the one place where IEEE special values matter is
`np.cov` with a single observation, which produces NaN entries (division by
`N - 1 = 0`) that `np.linalg.eig` then rejects with a `LinAlgError` — the
embedding returns `none` for those inputs.  External collaborators (OpenBabel
bond/atom attribute getters, the SMARTS matcher, `np.linalg.svd`) are
modelled at their interface boundary: attribute getters become record
fields, the SMARTS matcher becomes a match count, and the singular vector
returned by `np.linalg.svd` is characterised by its defining least-squares
minimality property.
-/

/-! ## Bonds and the topology classifier (`is_rotor`, `rotatable_bonds`) -/

/-- Attributes of one bond, as read off by the OpenBabel calls in `is_rotor`:
`IsDouble()`, `IsAmide()`, `FindSmallestRing() is not None`, `GetHyb()` and
`GetHvyValence()` of the two end atoms. -/
structure Bond where
  isDouble : Bool
  isAmide : Bool
  inRing : Bool
  beginHyb : ℕ
  endHyb : ℕ
  beginHvyValence : ℕ
  endHvyValence : ℕ
deriving DecidableEq, Repr

/-- Embedding of `is_rotor` (calc_props.py lines 331-359).  The Python
function returns `True`, `False`, or — when no `return` statement is reached
(a bond passing rules 1-4 that is terminal on at least one side) — `None`;
hence the `Option Bool` result type. -/
def is_rotor (bond : Bond) (include_amides : Bool := false) : Option Bool :=
  if bond.isDouble then some false
  else if bond.isAmide && !include_amides then some false
  else if bond.inRing then some false
  else if (bond.beginHyb == 1) != (bond.endHyb == 1) then some false
  else if bond.beginHvyValence > 1 && bond.endHvyValence > 1 then some true
  else none

/-- Python truthiness of the value returned by `is_rotor`, as consumed by
`if is_rotor(bond):` in `rotatable_bonds`: `None` and `False` are falsy. -/
def truthy : Option Bool → Bool
  | some b => b
  | none => false

/-- Embedding of `rotatable_bonds` (lines 314-328): fold of the loop
`rb = 0; for bond in OBMolBondIter(mol): if is_rotor(bond): rb += 1`. -/
def rotatable_bonds (bonds : List Bond) : ℕ :=
  bonds.foldl (fun rb bond => if truthy (is_rotor bond) then rb + 1 else rb) 0

/-! ## Batch orchestration (`average_properties_safe` and the loop in `main`) -/

/-- The record produced by `average_properties` (the dict literal at
lines 178-184): keys `rotatable_bonds`, `globularity`, `primary_amine`. -/
structure PropsRecord where
  rotatable_bonds : ℕ
  globularity : ℝ
  primary_amine : ℕ

/-- An output row of the batch run: the input row (opaque payload `α`)
together with the merged-in descriptor record, modelling
`row.update(properties); return row` in `average_properties_safe`. -/
structure OutRow (α : Type) where
  base : α
  props : PropsRecord

/-- One observed outcome of a call to `iterator.next(timeout=...)` in the
collection loop of `main` (lines 50-57): either the worker's value (an
`Option` since `average_properties_safe` returns the updated row or `None`),
or a `TimeoutError`. -/
inductive BatchEvent (α : Type) where
  | result : Option (OutRow α) → BatchEvent α
  | timeout : BatchEvent α

/-- Predicate: the event is a `TimeoutError`. -/
def isTimeout : BatchEvent α → Bool
  | .timeout => true
  | _ => false

/-- Predicate: the event is a worker result that was `None` (a failed row). -/
def isNoneResult : BatchEvent α → Bool
  | .result none => true
  | _ => false

/-- Predicate: the event is a successful worker result. -/
def isSomeResult : BatchEvent α → Bool
  | .result (some _) => true
  | _ => false

/-- Embedding of the collection loop of `main` (lines 50-57): the loop body
runs once per input row; a successful result is written with
`writer.writerow(row)`, a `None` result is skipped, and a `TimeoutError` is
swallowed by `except TimeoutError: pass`.  The output table is the list of
rows written, in write order. -/
def runBatch (events : List (BatchEvent α)) : List (OutRow α) :=
  events.foldl
    (fun out e =>
      match e with
      | .result (some row) => out ++ [row]
      | .result none => out
      | .timeout => out)
    []

/-- The base rows carried by the successful results among the events. -/
def resultBases (events : List (BatchEvent α)) : List α :=
  events.filterMap fun e =>
    match e with
    | .result (some o) => some o.base
    | _ => none

/-! ## Point clouds and the covariance matrix (`calc_glob`, lines 254-282) -/

/-- Mean of the coordinates along each axis.  This is both the row mean used
by `np.cov` and the centroid `np.average(X, axis=0)` computed in `svd_fit`. -/
noncomputable def centroid (pts : List (Fin 3 → ℝ)) : Fin 3 → ℝ := fun i =>
  ((pts.map fun p => p i).sum) / pts.length

/-- Embedding of `np.cov([points[0,:], points[1,:], points[2,:]])` at
line 272: the sample covariance matrix of the three coordinate rows over
`N = pts.length` observations, with the default normalisation `N - 1`
(`ddof = 1`).  The transposition `points = points.T` at line 269 only
re-indexes the same data and is absorbed here. -/
noncomputable def covMatrix (pts : List (Fin 3 → ℝ)) : Matrix (Fin 3) (Fin 3) ℝ :=
  Matrix.of fun i j =>
    ((pts.map fun p => (p i - centroid pts i) * (p j - centroid pts j)).sum) /
      ((pts.length : ℝ) - 1)

/-- The covariance matrix is real symmetric, hence Hermitian; this is what
entitles `np.linalg.eig` at line 275 to return real eigenvalues. -/
def covMatrix_isHermitian (pts : List (Fin 3 → ℝ)) : (covMatrix pts).IsHermitian := by
  show (covMatrix pts).conjTranspose = covMatrix pts
  ext i j
  simp only [Matrix.conjTranspose_apply, Matrix.of_apply, covMatrix, star_trivial]
  have h : (fun p : Fin 3 → ℝ => (p j - centroid pts j) * (p i - centroid pts i)) =
      fun p : Fin 3 → ℝ => (p i - centroid pts i) * (p j - centroid pts j) := by
    funext p; ring
  rw [h]

/-- The eigenvalues of the covariance matrix (`vals` at line 275), as the
spectrum of the Hermitian matrix, listed in the arbitrary order in which the
eigenvalue routine yields them. -/
noncomputable def eigList (pts : List (Fin 3 → ℝ)) : List ℝ :=
  List.ofFn (covMatrix_isHermitian pts).eigenvalues

/-- Embedding of `np.sort(vals)[::-1]` at line 276: sort descending. -/
noncomputable def sortDesc (l : List ℝ) : List ℝ :=
  l.insertionSort (fun a b => a ≥ b)

/-- Embedding of `calc_glob` on an extracted point cloud (lines 269-282).
After sorting descending, `vals[0]` is the head and `vals[-1]` the last
element of the sorted list; the code returns `vals[-1] / vals[0]` when
`vals[0] != 0` and `-1` otherwise.  For fewer than two points `np.cov`
divides by `N - 1 = 0` and produces NaN entries, and `np.linalg.eig` then
raises `LinAlgError` on the non-finite input: that exception is the `none`
branch. -/
noncomputable def calc_glob_points (pts : List (Fin 3 → ℝ)) : Option ℝ :=
  if pts.length < 2 then none
  else if (sortDesc (eigList pts)).headI ≠ 0 then
    some ((sortDesc (eigList pts)).getLastD 0 / (sortDesc (eigList pts)).headI)
  else
    some (-1)

/-! ## Best-fit plane (`svd_fit`, `distance`, `calc_avg_dist`, `calc_pbf`) -/

/-- Dot product of two coordinate vectors, as `np.dot` on length-3 arrays. -/
noncomputable def dot (x y : Fin 3 → ℝ) : ℝ := ∑ i, x i * y i

/-- Embedding of `distance` (lines 430-440): signed orthogonal distance
`np.dot(x - C, N)` of a point to the plane through `C` with normal `N`. -/
noncomputable def distance (x C N : Fin 3 → ℝ) : ℝ := dot (fun i => x i - C i) N

/-- Embedding of `calc_avg_dist` (lines 362-374): mean of the absolute
signed distances of the points to the plane `(C, N)`. -/
noncomputable def calc_avg_dist (points : List (Fin 3 → ℝ)) (C N : Fin 3 → ℝ) : ℝ :=
  ((points.map fun xyz => |distance xyz C N|).sum) / points.length

/-- The least-squares objective minimised by the singular vector that
`svd_fit` extracts: the sum of squared signed distances of the centred
points to the plane through the centroid with normal `v`. -/
noncomputable def sumSqDist (pts : List (Fin 3 → ℝ)) (v : Fin 3 → ℝ) : ℝ :=
  (pts.map fun p => (distance p (centroid pts) v) ^ 2).sum

/-- Interface model of `np.linalg.svd` as used by `svd_fit` (lines 394-427):
`N = V[-1]` is a unit right-singular vector belonging to the smallest
singular value of the centred coordinate matrix, i.e. a unit vector
minimising the sum of squared orthogonal distances over all unit vectors.
`np.linalg.svd` is an external library routine, so it enters the embedding
through this defining property of its output. -/
def IsBestFitNormal (pts : List (Fin 3 → ℝ)) (N : Fin 3 → ℝ) : Prop :=
  dot N N = 1 ∧ ∀ v : Fin 3 → ℝ, dot v v = 1 → sumSqDist pts N ≤ sumSqDist pts v

/-- The point cloud lies in some plane: there is a unit normal along which
every point has the same offset. -/
def IsPlanarCloud (pts : List (Fin 3 → ℝ)) : Prop :=
  ∃ n : Fin 3 → ℝ, ∃ d : ℝ, dot n n = 1 ∧ ∀ p ∈ pts, dot p n = d

/-- Embedding of `calc_pbf` on an extracted point cloud (lines 295-298):
`C, N = svd_fit(points); return calc_avg_dist(points, C, N)`, where `C` is
the centroid and `N` any vector satisfying the `np.linalg.svd` interface
property `IsBestFitNormal` (passed as a parameter). -/
noncomputable def calc_pbf_points (points : List (Fin 3 → ℝ)) (N : Fin 3 → ℝ) : ℝ :=
  calc_avg_dist points (centroid points) N

/-! ## Molecules and coordinate extraction (`get_atom_coords`, lines 377-391) -/

/-- One pybel atom at the interface boundary: its 3D coordinates (`coords`)
and its atomic number (hydrogen = 1).  The atomic number is carried only to
state that `get_atom_coords` never filters on it. -/
structure Atom where
  coords : Fin 3 → ℝ
  atomicNum : ℕ

/-- A pybel molecule as consumed here: the ordered atom list of the current
conformer. -/
structure Mol where
  atoms : List Atom

/-- Embedding of `get_atom_coords` (lines 377-391).  The body fills
`pts[a] = atoms[a].coords` for every index `a < len(mol.atoms)` and returns
`pts`; the `heavy_only` parameter is accepted but never read, and there is
no code path returning `None`.  The `Option` result type records the Python
calling convention under which the caller `calc_glob` tests the result
against `None`. -/
def get_atom_coords (mol : Mol) (heavy_only : Bool := false) :
    Option (List (Fin 3 → ℝ)) :=
  some (mol.atoms.map fun a => a.coords)

/-- Embedding of `calc_glob` at the molecule level (lines 254-282):
`points = get_atom_coords(mol, heavy_only=False)`, the `if points is None:
return 0` guard, then the eigenvalue computation on the point cloud. -/
noncomputable def calc_glob_mol (mol : Mol) : Option ℝ :=
  match get_atom_coords mol false with
  | none => some 0
  | some points => calc_glob_points points

/-- Embedding of `calc_pbf` at the molecule level (lines 285-298):
`points = get_atom_coords(mol)` (default `heavy_only=False`), then the
plane fit.  A `None` point set would crash inside `svd_fit` (`none`); that
branch is dead because `get_atom_coords` always returns a value. -/
noncomputable def calc_pbf_mol (mol : Mol) (N : Fin 3 → ℝ) : Option ℝ :=
  match get_atom_coords mol false with
  | none => none
  | some points => some (calc_pbf_points points N)

/-! ## The per-molecule aggregator (`average_properties`, lines 154-184) -/

/-- The data the external toolkit hands to `average_properties` for one
molecule: the conformer ensemble produced by `run_confab` (one point cloud
per conformer, all sharing one bond topology), the bond list of that
topology, and the number of matches of the module-level primary-amine
SMARTS pattern (`PRIMARY_AMINE_SMARTS.findall`). -/
structure MolData where
  confs : List (List (Fin 3 → ℝ))
  bonds : List Bond
  primaryAmineMatches : ℕ

/-- Embedding of `has_primary_amine` (lines 301-311):
`int(len(primary_amines) > 0)`. -/
def has_primary_amine (m : MolData) : ℕ :=
  if m.primaryAmineMatches > 0 then 1 else 0

/-- Embedding of `average_properties` (lines 154-184).  The conformer loop
fills `globs[i] = calc_glob(pymol)` and leaves `pymol` bound to the last
conformer; the returned dict holds `rotatable_bonds`, the mean of `globs`,
and `primary_amine` (the PBF lines are commented out in the source).  When
the ensemble is empty the loop never runs, so the later use of `pymol`
raises `UnboundLocalError`: that is the `none` branch for `confs = []`.  An
exception escaping `calc_glob` on any conformer also propagates (`mapM`). -/
noncomputable def average_properties (m : MolData) : Option PropsRecord :=
  match m.confs with
  | [] => none
  | _ :: _ =>
    (m.confs.mapM calc_glob_points).map fun globs =>
      { rotatable_bonds := rotatable_bonds m.bonds
        globularity := globs.sum / globs.length
        primary_amine := has_primary_amine m }

/-- Embedding of `average_properties_safe` (lines 144-151): the whole body
runs under `try`; any exception — from parsing `row[smiles_column]` through
the external toolkit (the `Except.error` case) or from `average_properties`
itself (its `none` case) — is caught, printed, and turned into `None`;
otherwise the input row updated with the computed properties is returned. -/
noncomputable def average_properties_safe (row : α) (parsed : Except String MolData) :
    Option (OutRow α) :=
  match parsed with
  | .error _ => none
  | .ok m =>
    match average_properties m with
    | none => none
    | some props => some ⟨row, props⟩

/-! ## Reporting (`report_properties`, lines 84-100, and `write_csv`) -/

/-- The dict view of the record returned by `average_properties`, keyed
exactly as the dict literal at lines 178-184.  Values are flattened to `ℝ`;
for the key-lookup behaviour verified here only the keys matter. -/
noncomputable def props_dict (r : PropsRecord) : List (String × ℝ) :=
  [("rotatable_bonds", (r.rotatable_bonds : ℝ)),
   ("globularity", r.globularity),
   ("primary_amine", (r.primary_amine : ℝ))]

/-- Embedding of `report_properties` (lines 84-100): the function subscripts
`properties['smiles']`, `['molwt']`, `['formula']`, `['rb']`, `['glob']`,
`['pbf']` in that order to build its stdout report; a missing key raises
`KeyError`, which is the `none` result.  The value list returned stands for
the data interpolated into the printed report. -/
noncomputable def report_properties (props : List (String × ℝ)) : Option (List ℝ) := do
  let s ← props.lookup "smiles"
  let mw ← props.lookup "molwt"
  let fo ← props.lookup "formula"
  let rb ← props.lookup "rb"
  let gl ← props.lookup "glob"
  let pb ← props.lookup "pbf"
  pure [s, mw, fo, rb, gl, pb]

/-! ## Helper lemmas -/

/-- The counting fold of `rotatable_bonds`, with a general accumulator. -/
theorem rotatable_bonds_foldl (bonds : List Bond) (k : ℕ) :
    bonds.foldl (fun rb bond => if truthy (is_rotor bond) then rb + 1 else rb) k
      = k + bonds.countP (fun b => truthy (is_rotor b)) := by
  induction bonds generalizing k with
  | nil => simp
  | cons b t ih =>
    simp only [List.foldl_cons, List.countP_cons, ih]
    by_cases hb : truthy (is_rotor b) <;> simp [hb] <;> omega

/-- The rotor count is the number of truthy `is_rotor` verdicts. -/
theorem rotatable_bonds_eq_countP (bonds : List Bond) :
    rotatable_bonds bonds = bonds.countP (fun b => truthy (is_rotor b)) := by
  unfold rotatable_bonds
  rw [rotatable_bonds_foldl]
  omega

/-- Counting matches equals summing indicator values. -/
theorem countP_eq_sum_indicator (l : List Bond) :
    (l.map fun b => if truthy (is_rotor b) then (1 : ℕ) else 0).sum
      = l.countP (fun b => truthy (is_rotor b)) := by
  induction l with
  | nil => rfl
  | cons b t ih =>
    simp only [List.map_cons, List.sum_cons, List.countP_cons, ih]
    by_cases hb : truthy (is_rotor b) <;> simp [hb] <;> omega

/-- The collection loop is a filter of the successful results, in order. -/
theorem runBatch_eq_filterMap {α : Type} (events : List (BatchEvent α)) :
    runBatch events =
      events.filterMap (fun e =>
        match e with
        | BatchEvent.result (some r) => some r
        | _ => none) := by
  have key : ∀ (evs : List (BatchEvent α)) (acc : List (OutRow α)),
      evs.foldl
          (fun out e =>
            match e with
            | BatchEvent.result (some row) => out ++ [row]
            | BatchEvent.result none => out
            | BatchEvent.timeout => out)
          acc
        = acc ++ evs.filterMap (fun e =>
            match e with
            | BatchEvent.result (some r) => some r
            | _ => none) := by
    intro evs
    induction evs with
    | nil => intro acc; simp
    | cons e t ih =>
      intro acc
      cases e with
      | result o =>
        cases o with
        | none => simp only [List.foldl_cons, List.filterMap_cons, ih]
        | some r => simp only [List.foldl_cons, List.filterMap_cons, ih, List.append_assoc,
            List.singleton_append]
      | timeout => simp only [List.foldl_cons, List.filterMap_cons, ih]
  exact key events []

/-- The number of written rows is the number of successful results. -/
theorem length_runBatch {α : Type} (events : List (BatchEvent α)) :
    (runBatch events).length = events.countP isSomeResult := by
  rw [runBatch_eq_filterMap]
  induction events with
  | nil => rfl
  | cons e t ih =>
    cases e with
    | result o =>
      cases o with
      | none => simpa [List.filterMap_cons, List.countP_cons, isSomeResult] using ih
      | some r => simpa [List.filterMap_cons, List.countP_cons, isSomeResult] using ih
    | timeout => simpa [List.filterMap_cons, List.countP_cons, isTimeout, isSomeResult] using ih

/-- Every event is of exactly one of the three kinds. -/
theorem countP_event_partition {α : Type} (events : List (BatchEvent α)) :
    events.countP isSomeResult + events.countP isNoneResult + events.countP isTimeout
      = events.length := by
  induction events with
  | nil => rfl
  | cons e t ih =>
    cases e with
    | result o =>
      cases o with
      | none =>
        simp [List.countP_cons, isSomeResult, isNoneResult, isTimeout]
        omega
      | some r =>
        simp [List.countP_cons, isSomeResult, isNoneResult, isTimeout]
        omega
    | timeout =>
      simp [List.countP_cons, isSomeResult, isNoneResult, isTimeout]
      omega

/-- The base rows written by the batch are exactly the base rows of the
successful results. -/
theorem map_base_runBatch {α : Type} (events : List (BatchEvent α)) :
    (runBatch events).map OutRow.base = resultBases events := by
  rw [runBatch_eq_filterMap]
  unfold resultBases
  induction events with
  | nil => rfl
  | cons e t ih =>
    cases e with
    | result o =>
      cases o with
      | none => simpa [List.filterMap_cons] using ih
      | some r => simpa [List.filterMap_cons] using ih
    | timeout => simpa [List.filterMap_cons] using ih

/-! ## Claim theorems: topology, aggregation, batch, reporting -/

/-- C3: a bond passing rules 1-4 (not double, not an excluded amide, not in
a ring, not exactly-one-sp) that is terminal on one side (here: begin atom
with heavy valence 1) makes `is_rotor` fall off the end of the function: it
returns no value (`None`), not a definite `False`; the caller only ever
sees it as falsy. -/
theorem is_rotor_terminal_no_value :
    is_rotor ⟨false, false, false, 3, 3, 1, 2⟩ = none
    ∧ truthy (is_rotor ⟨false, false, false, 3, 3, 1, 2⟩) = false := by
  constructor <;> rfl

/-- C4: `rotatable_bonds` equals the sum of the (truthy) `is_rotor`
verdicts over every bond of the topology, and the count is invariant under
any permutation of the bond iteration order. -/
theorem rotatable_bonds_sum_perm_invariant (bonds bonds' : List Bond)
    (h : bonds.Perm bonds') :
    rotatable_bonds bonds
        = (bonds.map fun b => if truthy (is_rotor b) then (1 : ℕ) else 0).sum
    ∧ rotatable_bonds bonds = rotatable_bonds bonds' := by
  constructor
  · rw [rotatable_bonds_eq_countP, countP_eq_sum_indicator]
  · rw [rotatable_bonds_eq_countP, rotatable_bonds_eq_countP]
    exact h.countP_eq _

/-- Witness for C4 at a concrete two-bond topology (a double bond and a
genuine rotor), with the iteration order swapped. -/
theorem rotatable_bonds_sum_perm_invariant_witness :
    rotatable_bonds [⟨true, false, false, 2, 2, 2, 2⟩, ⟨false, false, false, 3, 3, 2, 2⟩]
        = (([⟨true, false, false, 2, 2, 2, 2⟩, ⟨false, false, false, 3, 3, 2, 2⟩] :
              List Bond).map fun b => if truthy (is_rotor b) then (1 : ℕ) else 0).sum
    ∧ rotatable_bonds [⟨true, false, false, 2, 2, 2, 2⟩, ⟨false, false, false, 3, 3, 2, 2⟩]
        = rotatable_bonds [⟨false, false, false, 3, 3, 2, 2⟩, ⟨true, false, false, 2, 2, 2, 2⟩] :=
  rotatable_bonds_sum_perm_invariant _ _ (by decide)

/-- C6: a molecule whose conformer ensemble is empty makes
`average_properties` raise (`pymol` is never bound, so the dict construction
raises `UnboundLocalError`); no descriptor record is produced. -/
theorem average_properties_empty_ensemble (m : MolData) (h : m.confs = []) :
    average_properties m = none := by
  cases m with
  | mk confs bonds pa =>
    simp only at h
    subst h
    rfl

/-- Witness for C6 at a concrete molecule with zero conformers. -/
theorem average_properties_empty_ensemble_witness :
    average_properties ⟨[], [], 0⟩ = none :=
  average_properties_empty_ensemble ⟨[], [], 0⟩ rfl

/-- C7: a worker exception — whether from parsing the row's structure
string or from `average_properties` itself — is caught inside
`average_properties_safe` and becomes `None` (no result), and the batch
loop writes at most one output row per input row, so the output table never
exceeds the input table. -/
theorem batch_error_isolation {α : Type} (events : List (BatchEvent α)) (row : α)
    (err : String) (m : MolData) (hm : average_properties m = none) :
    average_properties_safe row (Except.error err) = (none : Option (OutRow α))
    ∧ average_properties_safe row (Except.ok m) = (none : Option (OutRow α))
    ∧ (runBatch events).length ≤ events.length := by
  refine ⟨rfl, ?_, ?_⟩
  · simp only [average_properties_safe, hm]
  · rw [length_runBatch]
    exact List.countP_le_length _

/-- Witness for C7: a failing parse, a molecule with an empty ensemble, and
a concrete two-event batch trace. -/
theorem batch_error_isolation_witness :
    average_properties_safe (7 : ℕ) (Except.error "parse failure") = (none : Option (OutRow ℕ))
    ∧ average_properties_safe (7 : ℕ) (Except.ok ⟨[], [], 0⟩) = (none : Option (OutRow ℕ))
    ∧ (runBatch [BatchEvent.timeout, BatchEvent.result (none : Option (OutRow ℕ))]).length
        ≤ ([BatchEvent.timeout, BatchEvent.result none] : List (BatchEvent ℕ)).length :=
  batch_error_isolation _ _ _ _ rfl

/-- C8: in a batch trace with exactly one timeout and exactly one failed
(`None`) result, and in which neither `rk` nor `rm` occurs among the
successful results (they are the failed and the timed-out row), the output
has exactly `N - 2` rows and contains neither `rk` nor `rm`; the loop
processes the whole trace. -/
theorem batch_drops_error_and_timeout {α : Type} (events : List (BatchEvent α)) (rk rm : α)
    (h1 : events.countP isTimeout = 1)
    (h2 : events.countP isNoneResult = 1)
    (hk : rk ∉ resultBases events)
    (hm : rm ∉ resultBases events) :
    (runBatch events).length = events.length - 2
    ∧ rk ∉ (runBatch events).map OutRow.base
    ∧ rm ∉ (runBatch events).map OutRow.base := by
  have hlen := length_runBatch events
  have hpart := countP_event_partition events
  refine ⟨by omega, ?_, ?_⟩
  · rw [map_base_runBatch]
    exact hk
  · rw [map_base_runBatch]
    exact hm

/-- Witness for C8: a four-row trace (success, error, timeout, success)
with failed row 2 and timed-out row 3. -/
theorem batch_drops_error_and_timeout_witness :
    (runBatch [BatchEvent.result (some ⟨1, ⟨0, 0, 0⟩⟩), BatchEvent.result none,
        BatchEvent.timeout, BatchEvent.result (some ⟨4, ⟨0, 0, 0⟩⟩)]).length
      = ([BatchEvent.result (some ⟨1, ⟨0, 0, 0⟩⟩), BatchEvent.result none,
        BatchEvent.timeout, BatchEvent.result (some ⟨4, ⟨0, 0, 0⟩⟩)] :
          List (BatchEvent ℕ)).length - 2
    ∧ (2 : ℕ) ∉ (runBatch [BatchEvent.result (some ⟨1, ⟨0, 0, 0⟩⟩), BatchEvent.result none,
        BatchEvent.timeout, BatchEvent.result (some ⟨4, ⟨0, 0, 0⟩⟩)]).map OutRow.base
    ∧ (3 : ℕ) ∉ (runBatch [BatchEvent.result (some ⟨1, ⟨0, 0, 0⟩⟩), BatchEvent.result none,
        BatchEvent.timeout, BatchEvent.result (some ⟨4, ⟨0, 0, 0⟩⟩)]).map OutRow.base :=
  batch_drops_error_and_timeout _ 2 3 rfl rfl (by simp [resultBases, List.filterMap_cons])
    (by simp [resultBases, List.filterMap_cons])

/-- C9: every record `average_properties` can produce carries exactly the
keys `rotatable_bonds`, `globularity`, `primary_amine`, so the very first
subscript `properties['smiles']` in `report_properties` raises `KeyError`:
the single-structure report path never completes. -/
theorem report_properties_keyerror (r : PropsRecord) :
    report_properties (props_dict r) = none := by
  rfl

/-- C10: `get_atom_coords` ignores its `heavy_only` flag, always returns
the coordinates of every atom of the conformer (hydrogens included, no
filter on `atomicNum`), and never returns a missing value; consequently
`calc_glob` and `calc_pbf` both run on the full all-atom point cloud and
their `None` guards are dead. -/
theorem get_atom_coords_total (mol : Mol) (h1 h2 : Bool) (N : Fin 3 → ℝ) :
    get_atom_coords mol h1 = get_atom_coords mol h2
    ∧ get_atom_coords mol h1 = some (mol.atoms.map fun a => a.coords)
    ∧ (get_atom_coords mol h1).isSome = true
    ∧ calc_glob_mol mol = calc_glob_points (mol.atoms.map fun a => a.coords)
    ∧ calc_pbf_mol mol N = some (calc_pbf_points (mol.atoms.map fun a => a.coords) N) :=
  ⟨rfl, rfl, rfl, rfl, rfl⟩

/-! ## Geometry helper lemmas: the covariance quadratic form -/

/-- Expanding the quadratic form of the un-normalised scatter matrix: the
double sum over axes of the per-point products collapses to a sum of
squares over the points. -/
theorem scatter_quadForm (pts : List (Fin 3 → ℝ)) (c x : Fin 3 → ℝ) :
    ∑ i, ∑ j, x i * (pts.map fun p => (p i - c i) * (p j - c j)).sum * x j
      = (pts.map fun p => (∑ i, x i * (p i - c i)) ^ 2).sum := by
  induction pts with
  | nil => simp
  | cons q t ih =>
    simp only [List.map_cons, List.sum_cons]
    have expand : ∀ i j : Fin 3,
        x i * ((q i - c i) * (q j - c j)
            + (t.map fun p => (p i - c i) * (p j - c j)).sum) * x j
          = x i * ((q i - c i) * (q j - c j)) * x j
            + x i * (t.map fun p => (p i - c i) * (p j - c j)).sum * x j := by
      intro i j; ring
    simp only [expand, Finset.sum_add_distrib]
    rw [ih]
    congr 1
    rw [pow_two, Fintype.sum_mul_sum]
    exact Finset.sum_congr rfl fun i _ => Finset.sum_congr rfl fun j _ => by ring

/-- The quadratic form of the covariance matrix is a normalised sum of
squares. -/
theorem quadForm_covMatrix (pts : List (Fin 3 → ℝ)) (x : Fin 3 → ℝ) :
    Matrix.dotProduct x (Matrix.mulVec (covMatrix pts) x)
      = (pts.map fun p => (∑ i, x i * (p i - centroid pts i)) ^ 2).sum
          / ((pts.length : ℝ) - 1) := by
  rw [← scatter_quadForm pts (centroid pts) x]
  simp only [Matrix.dotProduct, Matrix.mulVec, covMatrix, Matrix.of_apply]
  rw [Finset.sum_div]
  refine Finset.sum_congr rfl fun i _ => ?_
  rw [Finset.mul_sum, Finset.sum_div]
  refine Finset.sum_congr rfl fun j _ => ?_
  ring

/-- With at least two observations the covariance matrix is positive
semidefinite (the `N - 1` normalisation is positive). -/
theorem covMatrix_posSemidef (pts : List (Fin 3 → ℝ)) (h2 : 2 ≤ pts.length) :
    (covMatrix pts).PosSemidef := by
  refine ⟨covMatrix_isHermitian pts, fun x => ?_⟩
  have hs : star x = x := by
    funext i
    simp
  rw [hs, quadForm_covMatrix]
  apply div_nonneg
  · apply List.sum_nonneg
    intro y hy
    simp only [List.mem_map] at hy
    obtain ⟨p, _, rfl⟩ := hy
    positivity
  · have hc : (2 : ℝ) ≤ (pts.length : ℝ) := by exact_mod_cast h2
    linarith

/-- The trace of a real Hermitian matrix is the sum of its eigenvalues. -/
theorem trace_eq_sum_eigenvalues {n : Type*} [Fintype n] [DecidableEq n]
    {A : Matrix n n ℝ} (hA : A.IsHermitian) :
    A.trace = ∑ i, hA.eigenvalues i := by
  conv_lhs => rw [hA.spectral_theorem]
  rw [Matrix.trace_mul_comm, ← mul_assoc,
    Matrix.mem_unitaryGroup_iff'.mp hA.eigenvectorUnitary.2, one_mul,
    Matrix.trace_diagonal]
  simp [RCLike.ofReal_real_eq_id]

/-! ## Helper lemmas about the descending sort -/

/-- Sorting descending permutes the eigenvalue list. -/
theorem sortDesc_perm (l : List ℝ) : (sortDesc l).Perm l :=
  List.perm_insertionSort _ l

/-- The descending sort is sorted for the relation `a ≥ b`. -/
theorem sortDesc_sorted (l : List ℝ) : (sortDesc l).Sorted (fun a b => a ≥ b) :=
  List.sorted_insertionSort _ l

/-- The head of a nonempty list is a member. -/
theorem headI_mem_of_ne_nil {α : Type*} [Inhabited α] {l : List α} (h : l ≠ []) :
    l.headI ∈ l := by
  cases l with
  | nil => exact absurd rfl h
  | cons a t => exact List.mem_cons_self a t

/-- A nonempty list stays nonempty under the descending sort. -/
theorem sortDesc_ne_nil {l : List ℝ} (h : l ≠ []) : sortDesc l ≠ [] := by
  intro h0
  have hlen := (sortDesc_perm l).length_eq
  rw [h0] at hlen
  cases l with
  | nil => exact h rfl
  | cons a t => simp at hlen

/-- The head of the descending sort is in the original list. -/
theorem headI_sortDesc_mem {l : List ℝ} (h : l ≠ []) : (sortDesc l).headI ∈ l :=
  ((sortDesc_perm l).mem_iff).1 (headI_mem_of_ne_nil (sortDesc_ne_nil h))

/-- The head of the descending sort (the element `vals[0]`) dominates every
element of the original list. -/
theorem le_headI_sortDesc {l : List ℝ} {x : ℝ} (hx : x ∈ l) :
    x ≤ (sortDesc l).headI := by
  have hx' : x ∈ sortDesc l := ((sortDesc_perm l).mem_iff).2 hx
  have hs := sortDesc_sorted l
  cases hsd : sortDesc l with
  | nil =>
    rw [hsd] at hx'
    cases hx'
  | cons a t =>
    rw [hsd] at hx' hs
    simp only [List.headI]
    rcases List.mem_cons.1 hx' with rfl | hxt
    · exact le_refl _
    · exact (List.sorted_cons.1 hs).1 x hxt

/-- The last element of a list sorted for `a ≥ b` is below every member. -/
theorem sorted_getLastD_le :
    ∀ (l : List ℝ) (d : ℝ), l.Sorted (fun a b => a ≥ b) → ∀ x ∈ l, l.getLastD d ≤ x := by
  intro l
  induction l with
  | nil =>
    intro d _ x hx
    cases hx
  | cons a t ih =>
    intro d hs x hx
    rcases List.mem_cons.1 hx with rfl | hxt
    · cases t with
      | nil => exact le_refl _
      | cons b u =>
        have h1 : (b :: u).getLastD x ≤ b :=
          ih x (List.sorted_cons.1 hs).2 b (List.mem_cons_self b u)
        have h2 : b ≤ x := (List.sorted_cons.1 hs).1 b (List.mem_cons_self b u)
        exact le_trans h1 h2
    · cases t with
      | nil => cases hxt
      | cons b u => exact ih a (List.sorted_cons.1 hs).2 x hxt

/-- The last element of a nonempty list is a member. -/
theorem getLastD_mem_of_ne_nil {α : Type*} :
    ∀ (l : List α) (d : α), l ≠ [] → l.getLastD d ∈ l := by
  intro l
  induction l with
  | nil =>
    intro d h
    exact absurd rfl h
  | cons a t ih =>
    intro d _
    cases t with
    | nil => exact List.mem_cons_self a []
    | cons b u => exact List.mem_cons_of_mem a (ih a (by simp))

/-- The last element of the descending sort (the element `vals[-1]`) is in
the original list. -/
theorem getLastD_sortDesc_mem {l : List ℝ} (h : l ≠ []) :
    (sortDesc l).getLastD 0 ∈ l :=
  ((sortDesc_perm l).mem_iff).1 (getLastD_mem_of_ne_nil _ 0 (sortDesc_ne_nil h))

/-- The last element of the descending sort is below every member of the
original list. -/
theorem getLastD_sortDesc_le {l : List ℝ} {x : ℝ} (hx : x ∈ l) :
    (sortDesc l).getLastD 0 ≤ x :=
  sorted_getLastD_le (sortDesc l) 0 (sortDesc_sorted l) x
    (((sortDesc_perm l).mem_iff).2 hx)

/-! ## Helper lemmas about the eigenvalue list -/

/-- There are three eigenvalues. -/
theorem eigList_length (pts : List (Fin 3 → ℝ)) : (eigList pts).length = 3 := by
  simp [eigList]

/-- The eigenvalue list is nonempty. -/
theorem eigList_ne_nil (pts : List (Fin 3 → ℝ)) : eigList pts ≠ [] := by
  intro h0
  have := eigList_length pts
  rw [h0] at this
  simp at this

/-- Members of the eigenvalue list are eigenvalues. -/
theorem mem_eigList {pts : List (Fin 3 → ℝ)} {x : ℝ} (hx : x ∈ eigList pts) :
    ∃ i, (covMatrix_isHermitian pts).eigenvalues i = x := by
  simp only [eigList, List.mem_ofFn, Set.mem_range] at hx
  exact hx

/-- With at least two points every eigenvalue of the covariance matrix is
nonnegative. -/
theorem eigList_nonneg (pts : List (Fin 3 → ℝ)) (h2 : 2 ≤ pts.length) :
    ∀ x ∈ eigList pts, 0 ≤ x := by
  intro x hx
  obtain ⟨i, hi⟩ := mem_eigList hx
  rw [← hi]
  exact (covMatrix_posSemidef pts h2).eigenvalues_nonneg i

/-- The eigenvalues sum to the trace of the covariance matrix. -/
theorem eigList_sum (pts : List (Fin 3 → ℝ)) :
    (eigList pts).sum = (covMatrix pts).trace := by
  rw [trace_eq_sum_eigenvalues (covMatrix_isHermitian pts)]
  simp [eigList, Fin.sum_univ_three]
  ring

/-- If the covariance matrix has nonzero trace (and at least two points),
the leading sorted eigenvalue is strictly positive. -/
theorem sortDesc_headI_pos_of_trace (pts : List (Fin 3 → ℝ)) (h2 : 2 ≤ pts.length)
    (htr : (covMatrix pts).trace ≠ 0) : 0 < (sortDesc (eigList pts)).headI := by
  have hne := eigList_ne_nil pts
  have hnn := eigList_nonneg pts h2
  have hsum : (eigList pts).sum ≠ 0 := by
    rw [eigList_sum]
    exact htr
  by_contra hle
  push_neg at hle
  have hall : ∀ x ∈ eigList pts, x = 0 := by
    intro x hx
    have h1 := le_headI_sortDesc hx
    have h2x := hnn x hx
    linarith
  exact hsum (List.sum_eq_zero hall)

/-! ## Claim theorems: globularity -/

/-- C1: on any point cloud for which `np.cov`/`np.linalg.eig` are defined
(at least two points), `calc_glob` computes the eigenvalues of the 3x3
covariance matrix, sorts them descending, and returns smallest/largest,
which lies in `[0, 1]`; when the largest eigenvalue is exactly `0` it
returns the sentinel `-1` instead. -/
theorem calc_glob_spec (pts : List (Fin 3 → ℝ)) (h2 : 2 ≤ pts.length) :
    ((sortDesc (eigList pts)).headI ≠ 0 →
      ∃ g, calc_glob_points pts = some g
        ∧ g = (sortDesc (eigList pts)).getLastD 0 / (sortDesc (eigList pts)).headI
        ∧ 0 ≤ g ∧ g ≤ 1)
    ∧ ((sortDesc (eigList pts)).headI = 0 → calc_glob_points pts = some (-1)) := by
  have hnl : ¬ pts.length < 2 := not_lt.2 h2
  have hne := eigList_ne_nil pts
  have hheadmem := headI_sortDesc_mem hne
  have hhead0 : 0 ≤ (sortDesc (eigList pts)).headI :=
    eigList_nonneg pts h2 _ hheadmem
  have hlastmem := getLastD_sortDesc_mem hne
  have hlast0 : 0 ≤ (sortDesc (eigList pts)).getLastD 0 :=
    eigList_nonneg pts h2 _ hlastmem
  have hle : (sortDesc (eigList pts)).getLastD 0 ≤ (sortDesc (eigList pts)).headI :=
    getLastD_sortDesc_le hheadmem
  constructor
  · intro hmax
    have hheadpos : 0 < (sortDesc (eigList pts)).headI :=
      lt_of_le_of_ne hhead0 (Ne.symm hmax)
    refine ⟨_, ?_, rfl, ?_, ?_⟩
    · unfold calc_glob_points
      rw [if_neg hnl, if_pos hmax]
    · exact div_nonneg hlast0 hhead0
    · exact (div_le_one hheadpos).2 hle
  · intro hmax
    unfold calc_glob_points
    rw [if_neg hnl, if_neg (fun h => h hmax)]

/-- Witness for C1: two distinct points on the x-axis give a covariance
matrix with trace 1/2, hence a nonzero leading eigenvalue, and the computed
globularity lies in `[0, 1]`. -/
theorem calc_glob_spec_witness :
    2 ≤ ([(![0, 0, 0] : Fin 3 → ℝ), ![1, 0, 0]] : List (Fin 3 → ℝ)).length
    ∧ ∃ g, calc_glob_points [(![0, 0, 0] : Fin 3 → ℝ), ![1, 0, 0]] = some g
        ∧ 0 ≤ g ∧ g ≤ 1 := by
  have h2 : 2 ≤ ([(![0, 0, 0] : Fin 3 → ℝ), ![1, 0, 0]] : List (Fin 3 → ℝ)).length := by
    norm_num
  have htr : (covMatrix [(![0, 0, 0] : Fin 3 → ℝ), ![1, 0, 0]]).trace ≠ 0 := by
    have : (covMatrix [(![0, 0, 0] : Fin 3 → ℝ), ![1, 0, 0]]).trace = 1 / 2 := by
      simp [Matrix.trace, Matrix.diag, covMatrix, centroid, Fin.sum_univ_three,
        Matrix.cons_val_zero, Matrix.cons_val_one, Matrix.head_cons, Matrix.cons_val_two,
        Matrix.tail_cons]
      norm_num
    rw [this]
    norm_num
  have hmax := sortDesc_headI_pos_of_trace _ h2 htr
  obtain ⟨g, hg, _, hg0, hg1⟩ := (calc_glob_spec _ h2).1 (ne_of_gt hmax)
  exact ⟨h2, g, hg, hg0, hg1⟩

/-- C5 counterexample: a cloud of a single point.  `np.cov` with one
observation divides by `N - 1 = 0` (NaN matrix) and `np.linalg.eig` raises
`LinAlgError`, so `calc_glob` raises instead of returning `-1`: the claim
fails at `N = 1`. -/
theorem calc_glob_single_point_raises :
    calc_glob_points [(![0, 0, 0] : Fin 3 → ℝ)] = none
    ∧ calc_glob_points [(![0, 0, 0] : Fin 3 → ℝ)] ≠ some (-1) := by
  constructor
  · rfl
  · intro h
    cases h.symm.trans (rfl : calc_glob_points [(![0, 0, 0] : Fin 3 → ℝ)] = none)

/-- A list of nonnegative reals summing to zero is all zeros. -/
theorem list_nonneg_sum_zero :
    ∀ (l : List ℝ), (∀ x ∈ l, 0 ≤ x) → l.sum = 0 → ∀ x ∈ l, x = 0 := by
  intro l
  induction l with
  | nil =>
    intro _ _ x hx
    cases hx
  | cons a t ih =>
    intro hn hs x hx
    have ha : 0 ≤ a := hn a (List.mem_cons_self a t)
    have ht : 0 ≤ t.sum := List.sum_nonneg fun y hy => hn y (List.mem_cons_of_mem a hy)
    rw [List.sum_cons] at hs
    rcases List.mem_cons.1 hx with rfl | hxt
    · linarith
    · exact ih (fun y hy => hn y (List.mem_cons_of_mem a hy)) (by linarith) x hxt

/-- C5 (amended): for `N ≥ 2` identical points the covariance matrix has
zero trace, so all eigenvalues vanish, the `vals[0] != 0` test fails, and
`calc_glob` returns the sentinel `-1`.  (At `N = 1` the code instead
raises, see the counterexample.) -/
theorem calc_glob_identical_points (p : Fin 3 → ℝ) (n : ℕ) (hn : 2 ≤ n) :
    calc_glob_points (List.replicate n p) = some (-1) := by
  have h2 : 2 ≤ (List.replicate n p).length := by simpa using hn
  have hnR : (n : ℝ) ≠ 0 := by
    have h0 : 0 < n := by omega
    exact_mod_cast h0.ne'
  have hc : ∀ i, centroid (List.replicate n p) i = p i := by
    intro i
    simp only [centroid, List.map_replicate, List.sum_replicate, nsmul_eq_mul,
      List.length_replicate]
    rw [mul_comm, mul_div_assoc, div_self hnR, mul_one]
  have htr : (covMatrix (List.replicate n p)).trace = 0 := by
    simp [Matrix.trace, Matrix.diag, covMatrix, hc, List.map_replicate, List.sum_replicate]
  have hsum0 : (eigList (List.replicate n p)).sum = 0 := by
    rw [eigList_sum, htr]
  have hall := list_nonneg_sum_zero _ (eigList_nonneg _ h2) hsum0
  have hhead0 : (sortDesc (eigList (List.replicate n p))).headI = 0 :=
    hall _ (headI_sortDesc_mem (eigList_ne_nil _))
  unfold calc_glob_points
  rw [if_neg (not_lt.2 h2), if_neg (fun h => h hhead0)]

/-- Witness for the amended C5 at two coincident points. -/
theorem calc_glob_identical_points_witness :
    calc_glob_points (List.replicate 2 (![0, 0, 0] : Fin 3 → ℝ)) = some (-1) :=
  calc_glob_identical_points ![0, 0, 0] 2 (by norm_num)

/-! ## Helper lemmas for the best-fit plane -/

/-- A finite sum over the axes and a list sum over the points commute. -/
theorem finsetSum_listSum {α : Type*} (l : List α) (f : Fin 3 → α → ℝ) :
    ∑ i, (l.map (f i)).sum = (l.map fun a => ∑ i, f i a).sum := by
  induction l with
  | nil => simp
  | cons a t ih => simp [List.map_cons, List.sum_cons, Finset.sum_add_distrib, ih]

/-- The dot product against the centroid is the average of the per-point
dot products. -/
theorem dot_centroid (pts : List (Fin 3 → ℝ)) (v : Fin 3 → ℝ) :
    dot (centroid pts) v = (pts.map fun p => dot p v).sum / pts.length := by
  unfold dot centroid
  simp_rw [div_mul_eq_mul_div]
  rw [← Finset.sum_div]
  congr 1
  simp_rw [← List.sum_map_mul_right]
  exact finsetSum_listSum pts fun i p => p i * v i

/-- The signed distance splits as a difference of dot products. -/
theorem distance_eq_dot_sub (x C N : Fin 3 → ℝ) :
    distance x C N = dot x N - dot C N := by
  unfold distance dot
  rw [← Finset.sum_sub_distrib]
  exact Finset.sum_congr rfl fun i _ => by ring

/-- A planar cloud has zero least-squares objective along its own plane
normal: the centroid lies in the plane, so every centred dot product
vanishes. -/
theorem sumSqDist_eq_zero_of_planar (pts : List (Fin 3 → ℝ)) (hne : pts ≠ [])
    (n : Fin 3 → ℝ) (d : ℝ) (hp : ∀ p ∈ pts, dot p n = d) :
    sumSqDist pts n = 0 := by
  have hlen : (0 : ℝ) < pts.length := by
    have := List.length_pos.2 hne
    exact_mod_cast this
  have hmapd : pts.map (fun p => dot p n) = List.replicate pts.length d :=
    List.eq_replicate_iff.2 ⟨by simp, fun b hb => by
      obtain ⟨p, hpmem, rfl⟩ := List.mem_map.1 hb
      exact hp p hpmem⟩
  have hcent : dot (centroid pts) n = d := by
    rw [dot_centroid, hmapd, List.sum_replicate, nsmul_eq_mul, mul_comm,
      mul_div_assoc, div_self (ne_of_gt hlen), mul_one]
  unfold sumSqDist
  have hzero : pts.map (fun p => (distance p (centroid pts) n) ^ 2)
      = pts.map fun _ => (0 : ℝ) := by
    apply List.map_congr_left
    intro p hpmem
    rw [distance_eq_dot_sub, hcent, hp p hpmem, sub_self]
    norm_num
  rw [hzero]
  simp

/-! ## Claim theorems: planarity (PBF) -/

/-- C2: on a point cloud of at least two points, `calc_pbf` returns the
mean absolute orthogonal distance of the points to the least-squares
best-fit plane through the centroid (the plane produced by `svd_fit`), and
on a perfectly planar cloud that deviation is exactly `0`. -/
theorem calc_pbf_spec (pts : List (Fin 3 → ℝ)) (N : Fin 3 → ℝ) (h2 : 2 ≤ pts.length)
    (hN : IsBestFitNormal pts N) :
    calc_pbf_points pts N
        = ((pts.map fun p => |distance p (centroid pts) N|).sum) / pts.length
    ∧ (IsPlanarCloud pts → calc_pbf_points pts N = 0) := by
  constructor
  · rfl
  · rintro ⟨n, d, hn, hp⟩
    have hne : pts ≠ [] := by
      intro h0
      rw [h0] at h2
      simp at h2
    have h0 : sumSqDist pts n = 0 := sumSqDist_eq_zero_of_planar pts hne n d hp
    have hNle : sumSqDist pts N ≤ 0 := h0 ▸ hN.2 n hn
    have hNge : 0 ≤ sumSqDist pts N := by
      apply List.sum_nonneg
      intro y hy
      obtain ⟨p, _, rfl⟩ := List.mem_map.1 hy
      positivity
    have hsq : ∀ y ∈ pts.map (fun p => (distance p (centroid pts) N) ^ 2), 0 ≤ y := by
      intro y hy
      obtain ⟨p, _, rfl⟩ := List.mem_map.1 hy
      positivity
    have hzero : ∀ p ∈ pts, distance p (centroid pts) N = 0 := by
      intro p hpmem
      have hmem : (distance p (centroid pts) N) ^ 2
          ∈ pts.map (fun p => (distance p (centroid pts) N) ^ 2) :=
        List.mem_map_of_mem _ hpmem
      have := list_nonneg_sum_zero _ hsq (le_antisymm hNle hNge) _ hmem
      exact pow_eq_zero_iff (two_ne_zero) |>.1 this
    unfold calc_pbf_points calc_avg_dist
    have hmap : pts.map (fun xyz => |distance xyz (centroid pts) N|)
        = pts.map fun _ => (0 : ℝ) := by
      apply List.map_congr_left
      intro p hpmem
      rw [hzero p hpmem, abs_zero]
    rw [hmap]
    simp

/-- Witness for C2: the four corners of a unit square in the `z = 0` plane
with the best-fit normal `(0, 0, 1)`; the computed deviation is `0`. -/
theorem calc_pbf_spec_witness :
    calc_pbf_points [(![0, 0, 0] : Fin 3 → ℝ), ![1, 0, 0], ![0, 1, 0], ![1, 1, 0]]
        ![0, 0, 1] = 0 := by
  have h2 : 2 ≤ ([(![0, 0, 0] : Fin 3 → ℝ), ![1, 0, 0], ![0, 1, 0], ![1, 1, 0]] :
      List (Fin 3 → ℝ)).length := by norm_num
  have hNunit : dot ![0, 0, 1] ![0, 0, 1] = 1 := by
    simp [dot, Fin.sum_univ_three]
  have hplanar :
      IsPlanarCloud [(![0, 0, 0] : Fin 3 → ℝ), ![1, 0, 0], ![0, 1, 0], ![1, 1, 0]] := by
    refine ⟨![0, 0, 1], 0, hNunit, ?_⟩
    intro p hp
    fin_cases hp <;> simp [dot, Fin.sum_univ_three]
  have hzeroobj :
      sumSqDist [(![0, 0, 0] : Fin 3 → ℝ), ![1, 0, 0], ![0, 1, 0], ![1, 1, 0]]
        ![0, 0, 1] = 0 := by
    simp [sumSqDist, distance, dot, centroid, Fin.sum_univ_three]
  have hbest :
      IsBestFitNormal [(![0, 0, 0] : Fin 3 → ℝ), ![1, 0, 0], ![0, 1, 0], ![1, 1, 0]]
        ![0, 0, 1] := by
    refine ⟨hNunit, ?_⟩
    intro v hv
    rw [hzeroobj]
    apply List.sum_nonneg
    intro y hy
    obtain ⟨p, _, rfl⟩ := List.mem_map.1 hy
    positivity
  exact (calc_pbf_spec _ _ h2 hbest).2 hplanar
